import Mathlib

/-!
Verification of the offline-cache service worker of the food-festival
repository (src/service-worker.js), as a shallow embedding.

Caches are modelled as association lists from request keys (URLs) to
response bodies; the cache storage is an association list from cache
names to caches, kept in creation order.  The network is a function
from a request key to `Except` (a failure message or a response body).
Each event handler of the worker becomes a pure function returning the
new storage together with the observable outcome (response, network
calls issued, deletions attempted).
-/

/-- Line 1 of service-worker.js: `const APP_PREFIX = "FoodFest-"`. -/
def APP_PREFIX : String := "FoodFest-"

/-- Line 2 of service-worker.js: `const VERSION = "version_01"`. -/
def VERSION : String := "version_01"

/-- Line 3 of service-worker.js: `const CACHE_NAME = APP_PREFIX + VERSION`. -/
def CACHE_NAME : String := APP_PREFIX ++ VERSION

/-- Lines 6-18 of service-worker.js: the fixed file manifest. -/
def FILES_TO_CACHE : List String :=
  [ "./index.html"
  , "./events.html"
  , "./tickets.html"
  , "./schedule.html"
  , "./assets/css/style.css"
  , "./assets/css/bootstrap.css"
  , "./assets/css/tickets.css"
  , "./dist/app.bundle.js"
  , "./dist/events.bundle.js"
  , "./dist/tickets.bundle.js"
  , "./dist/schedule.bundle.js" ]

/-- A single named cache: request key to stored response body. -/
abbrev Cache := List (String × String)

/-- The cache storage: cache name to cache, in creation order. -/
abbrev CacheStore := List (String × Cache)

/-- The network: request key to failure message or response body. -/
abbrev Network := String → Except String String

/-- `cache.match(request)` restricted to one cache: first stored entry
whose key equals the request key. -/
def cacheMatch (c : Cache) (req : String) : Option String :=
  (c.find? (fun e => e.1 == req)).map (fun e => e.2)

/-- `caches.match(e.request)`: search every cache in storage order and
return the first stored response for the request, if any. -/
def cachesMatch (store : CacheStore) (req : String) : Option String :=
  match store with
  | [] => none
  | (_, c) :: rest =>
    match cacheMatch c req with
    | some resp => some resp
    | none => cachesMatch rest req

/-- Observable outcome of the fetch-intercept handler: the storage
after handling (the handler performs no cache writes), the response
(or propagated network failure) delivered to the page, and the list of
network requests issued. -/
structure FetchOutcome where
  store : CacheStore
  response : Except String String
  networkCalls : List String
  deriving Repr

/-- Lines 21-39 of service-worker.js: the fetch listener.  It responds
with `caches.match(e.request)` when that resolves to a stored
response, and otherwise with `fetch(e.request)` — the unmodified
request sent once to the network, whose result (success or failure) is
returned as is.  No cache is written on this path. -/
def handleFetch (store : CacheStore) (network : Network) (req : String) : FetchOutcome :=
  match cachesMatch store req with
  | some cached => { store := store, response := Except.ok cached, networkCalls := [] }
  | none => { store := store, response := network req, networkCalls := [req] }

/-- Look up a named cache in the storage. -/
def storeLookup (store : CacheStore) (name : String) : Option Cache :=
  (store.find? (fun e => e.1 == name)).map (fun e => e.2)

/-- `caches.open(name)`: return the storage with the named cache
present, creating an empty one (durably, at the end of the storage
order) when absent. -/
def cachesOpen (store : CacheStore) (name : String) : CacheStore :=
  if store.any (fun e => e.1 == name) then store else store ++ [(name, [])]

/-- The fetching half of `cache.addAll(files)`: fetch every listed file
from the network; fail with the first failure, otherwise produce the
list of (request key, response body) pairs in manifest order. -/
def fetchAll (network : Network) : List String → Except String (List (String × String))
  | [] => Except.ok []
  | f :: rest =>
    match network f with
    | Except.error e => Except.error e
    | Except.ok r =>
      match fetchAll network rest with
      | Except.error e => Except.error e
      | Except.ok rs => Except.ok ((f, r) :: rs)

/-- `cache.put(req, resp)`: replace any stored entry for the request
key with the new response. -/
def cachePut (c : Cache) (req resp : String) : Cache :=
  c.filter (fun e => e.1 != req) ++ [(req, resp)]

/-- The storing half of `cache.addAll`: put every fetched entry into
the cache, in order. -/
def cacheAddEntries (c : Cache) : List (String × String) → Cache
  | [] => c
  | (req, resp) :: rest => cacheAddEntries (cachePut c req resp) rest

/-- Apply a function to the cache stored under the given name, leaving
every other cache untouched. -/
def storeUpdate (store : CacheStore) (name : String) (f : Cache → Cache) : CacheStore :=
  store.map (fun e => if e.1 == name then (e.1, f e.2) else e)

/-- Outcome of the install handler: the storage afterwards, and the
promise handed to `e.waitUntil` (ok, or the first fetch failure, which
makes the host report install as failed). -/
structure InstallOutcome where
  store : CacheStore
  result : Except String Unit
  deriving Repr

/-- Lines 42-51 of service-worker.js, parameterised by the cache name
(the source fixes it to `CACHE_NAME`; a new deployment bumps `VERSION`
and hence the name): `caches.open(cacheName).then(cache =>
cache.addAll(FILES_TO_CACHE))` under `e.waitUntil`.  `addAll` fetches
every manifest entry and stores them as one grouped operation; if any
fetch fails nothing is stored and the grouped operation rejects. -/
def handleInstallWith (cacheName : String) (store : CacheStore) (network : Network) :
    InstallOutcome :=
  let opened := cachesOpen store cacheName
  match fetchAll network FILES_TO_CACHE with
  | Except.error e => { store := opened, result := Except.error e }
  | Except.ok entries =>
    { store := storeUpdate opened cacheName (fun c => cacheAddEntries c entries)
    , result := Except.ok () }

/-- Lines 42-51 of service-worker.js: the install listener as shipped,
using the constant `CACHE_NAME`. -/
def handleInstall : CacheStore → Network → InstallOutcome :=
  handleInstallWith CACHE_NAME

/-- First index at which the pattern occurs as a contiguous run in the
list, if any (the char-list core of JavaScript `String.indexOf`). -/
def firstIndexOfAux (pat : List Char) : List Char → Option Nat
  | [] => if pat.isPrefixOf ([] : List Char) then some 0 else none
  | c :: t =>
    if pat.isPrefixOf (c :: t) then some 0
    else (firstIndexOfAux pat t).map (fun n => n + 1)

/-- JavaScript `s.indexOf(pat)`: index of the first occurrence of
`pat` in `s`, or `-1` when absent. -/
def jsIndexOf (s pat : String) : Int :=
  match firstIndexOfAux pat.data s.data with
  | some n => (n : Int)
  | none => -1

/-- JavaScript `Array.prototype.indexOf` core: index of the first
occurrence of the element, if any. -/
def arrayIndexOfAux (x : String) : List String → Option Nat
  | [] => none
  | y :: t => if y == x then some 0 else (arrayIndexOfAux x t).map (fun n => n + 1)

/-- JavaScript `arr.indexOf(x)`: first index of `x`, or `-1`. -/
def arrayIndexOf (l : List String) (x : String) : Int :=
  match arrayIndexOfAux x l with
  | some n => (n : Int)
  | none => -1

/-- `caches.keys()`: the names of all caches, in storage order. -/
def storeKeys (store : CacheStore) : List String :=
  store.map (fun e => e.1)

/-- Lines 59-63 of service-worker.js: the keep-list built during
activate.  `keyList.filter(key => key.indexOf(APP_PREFIX))` keeps a
key when the index is truthy (any number other than 0), then
`cacheKeeplist.push(CACHE_NAME)` appends the current cache name. -/
def cacheKeeplist (keyList : List String) : List String :=
  keyList.filter (fun key => jsIndexOf key APP_PREFIX != 0) ++ [CACHE_NAME]

/-- Lines 65-72 of service-worker.js: the keys whose deletion the
activate handler requests — those with `cacheKeeplist.indexOf(key) === -1`. -/
def activateDeletions (keyList : List String) : List String :=
  keyList.filter (fun key => arrayIndexOf (cacheKeeplist keyList) key == -1)

/-- Lines 54-75 of service-worker.js: the activate listener.  It
enumerates the cache names, builds the keep-list, requests deletion of
every enumerated name absent from the keep-list (the deletions are
issued together and jointly awaited by `Promise.all` under
`e.waitUntil`), and returns the storage with those caches removed
together with the list of deletions attempted. -/
def handleActivate (store : CacheStore) : CacheStore × List String :=
  let toDelete := activateDeletions (storeKeys store)
  (store.filter (fun e => !(toDelete.contains e.1)), toDelete)

/-- A demonstration storage with one prior-generation cache holding one
entry, used to instantiate the general theorems. -/
def demoStore : CacheStore :=
  [("FoodFest-version_01", [("./index.html", "INDEX")])]

/-- The three-key storage named by the spec's activate-cleanup example. -/
def demoThreeKeyStore : CacheStore :=
  [ ("FoodFest-version_01", [])
  , ("FoodFest-version_02", [])
  , ("other-app-cache", []) ]

/-- A network in which every request succeeds with a body derived from
the request key. -/
def demoOkNetwork : Network :=
  fun f => Except.ok ("body:" ++ f)

/-- A network in which exactly the manifest entry "./index.html" fails. -/
def demoOneFailNetwork : Network :=
  fun f => if f == "./index.html" then Except.error "HTTP 404" else Except.ok ("body:" ++ f)

/-- Claim C1: a fetch request with a stored response in any visible cache
is answered with that stored response and issues zero network calls. -/
theorem c1_cache_first (store : CacheStore) (network : Network) (req resp : String)
    (h : cachesMatch store req = some resp) :
    handleFetch store network req =
      { store := store, response := Except.ok resp, networkCalls := [] } := by
  simp [handleFetch, h]

/-- Witness for C1 at a concrete store, request and network. -/
theorem c1_cache_first_witness :
    handleFetch demoStore (fun _ => Except.error "offline") "./index.html" =
      { store := demoStore, response := Except.ok "INDEX", networkCalls := [] } :=
  c1_cache_first _ _ _ _ (by decide)

/-- Claim C2: a fetch request with no stored response issues exactly one
network call carrying the unmodified request and returns the network's
result unchanged; a network failure propagates with no retry and no
substituted fallback. -/
theorem c2_network_fallback (store : CacheStore) (network : Network) (req : String)
    (h : cachesMatch store req = none) :
    (handleFetch store network req).networkCalls = [req] ∧
    (handleFetch store network req).response = network req := by
  simp [handleFetch, h]

/-- Witness for C2: on an empty store with a failing network, the failure
is returned unchanged after exactly one network call. -/
theorem c2_network_fallback_witness :
    (handleFetch [] (fun _ => Except.error "offline") "./unknown.json").networkCalls
        = ["./unknown.json"] ∧
    (handleFetch [] (fun _ => Except.error "offline") "./unknown.json").response
        = Except.error "offline" :=
  c2_network_fallback [] (fun _ => Except.error "offline") "./unknown.json" (by decide)

/-- Claim C8: handling a fetch event never modifies the cache storage:
no write-back on a miss, no change on a hit. -/
theorem c8_fetch_no_write (store : CacheStore) (network : Network) (req : String) :
    (handleFetch store network req).store = store := by
  unfold handleFetch
  cases cachesMatch store req <;> rfl

/-- If some listed file fails to fetch, `fetchAll` fails. -/
theorem fetchAll_error_of_mem (network : Network) (l : List String) (f : String)
    (hf : f ∈ l) (e : String) (he : network f = Except.error e) :
    ∃ msg, fetchAll network l = Except.error msg := by
  induction l with
  | nil => cases hf
  | cons g rest ih =>
    rcases List.mem_cons.mp hf with h | h
    · subst h
      exact ⟨e, by simp [fetchAll, he]⟩
    · cases hg : network g with
      | error e2 => exact ⟨e2, by simp [fetchAll, hg]⟩
      | ok r =>
        obtain ⟨msg, hm⟩ := ih h
        exact ⟨msg, by simp [fetchAll, hg, hm]⟩

/-- If every listed file fetches successfully, `fetchAll` succeeds with
the entries in manifest order. -/
theorem fetchAll_ok (network : Network) (resp : String → String) (l : List String)
    (hok : ∀ f ∈ l, network f = Except.ok (resp f)) :
    fetchAll network l = Except.ok (l.map (fun f => (f, resp f))) := by
  induction l with
  | nil => rfl
  | cons g rest ih =>
    have hg : network g = Except.ok (resp g) := hok g (List.mem_cons_self g rest)
    have hrest : ∀ f ∈ rest, network f = Except.ok (resp f) :=
      fun f hf => hok f (List.mem_cons_of_mem g hf)
    simp [fetchAll, hg, ih hrest]

/-- `storeLookup` on a cons cell. -/
theorem storeLookup_cons (a : String × Cache) (t : CacheStore) (name : String) :
    storeLookup (a :: t) name =
      if a.1 == name then some a.2 else storeLookup t name := by
  by_cases h : a.1 == name <;> simp [storeLookup, List.find?_cons, h]

/-- A cache name is absent from the storage exactly when `List.any`
fails to spot it. -/
theorem storeLookup_isSome_iff_any (store : CacheStore) (name : String) :
    (storeLookup store name).isSome = store.any (fun e => e.1 == name) := by
  induction store with
  | nil => rfl
  | cons a t ih =>
    by_cases h : a.1 == name <;> simp [storeLookup_cons, h, List.any_cons, ih]

/-- Appending a differently named cache does not change a lookup. -/
theorem storeLookup_append_single_ne (store : CacheStore) (name other : String)
    (c : Cache) (h : other ≠ name) :
    storeLookup (store ++ [(name, c)]) other = storeLookup store other := by
  induction store with
  | nil =>
    have hne : ¬ (name = other) := fun hh => h hh.symm
    simp [storeLookup, List.find?_cons, hne]
  | cons a t ih =>
    by_cases ha : a.1 = other <;>
      simp [List.cons_append, storeLookup_cons, ha, ih]

/-- Opening a cache leaves the lookup of every other name unchanged. -/
theorem storeLookup_cachesOpen_ne (store : CacheStore) (name other : String)
    (h : other ≠ name) :
    storeLookup (cachesOpen store name) other = storeLookup store other := by
  unfold cachesOpen
  split
  · rfl
  · exact storeLookup_append_single_ne store name other [] h

/-- After opening, the named cache exists: the prior cache when it was
present, the fresh empty one otherwise. -/
theorem storeLookup_cachesOpen_self (store : CacheStore) (name : String) :
    storeLookup (cachesOpen store name) name =
      some ((storeLookup store name).getD []) := by
  unfold cachesOpen
  by_cases hany : store.any (fun e => e.1 == name)
  · have hsome : (storeLookup store name).isSome := by
      rw [storeLookup_isSome_iff_any]; exact hany
    obtain ⟨c, hc⟩ := Option.isSome_iff_exists.mp hsome
    simp [hany, hc]
  · have hnone : storeLookup store name = none := by
      cases hl : storeLookup store name with
      | none => rfl
      | some c =>
        exfalso
        apply hany
        rw [← storeLookup_isSome_iff_any, hl]
        rfl
    rw [if_neg hany]
    induction store with
    | nil => simp [storeLookup_cons, storeLookup]
    | cons a t ih =>
      rw [storeLookup_cons] at hnone
      by_cases ha : a.1 == name
      · rw [if_pos ha] at hnone; cases hnone
      · rw [if_neg ha] at hnone
        have hany' : ¬ t.any (fun e => e.1 == name) := by
          intro hh
          apply hany
          simp [List.any_cons, hh]
        simp [List.cons_append, storeLookup_cons, ha, ih hany' hnone, hnone]

/-- Updating one named cache leaves the lookup of every other name
unchanged. -/
theorem storeLookup_storeUpdate_ne (store : CacheStore) (name other : String)
    (f : Cache → Cache) (h : other ≠ name) :
    storeLookup (storeUpdate store name f) other = storeLookup store other := by
  induction store with
  | nil => rfl
  | cons a t ih =>
    simp only [storeUpdate, List.map_cons, beq_iff_eq] at ih ⊢
    have hno : ¬ (name = other) := fun hh => h hh.symm
    by_cases ha : a.1 = name
    · have hao : ¬ (a.1 = other) := by
        rw [ha]
        exact hno
      simp [storeLookup_cons, beq_iff_eq, ha, hao, hno, ih]
    · have hon : ¬ (other = name) := h
      by_cases hao : a.1 = other <;>
        simp [storeLookup_cons, beq_iff_eq, ha, hao, hon, ih]

/-- Updating one named cache maps the stored cache under that name. -/
theorem storeLookup_storeUpdate_self (store : CacheStore) (name : String)
    (f : Cache → Cache) :
    storeLookup (storeUpdate store name f) name = (storeLookup store name).map f := by
  induction store with
  | nil => rfl
  | cons a t ih =>
    simp only [storeUpdate, List.map_cons, beq_iff_eq] at ih ⊢
    by_cases ha : a.1 = name <;>
      simp [storeLookup_cons, beq_iff_eq, ha, ih]

/-- `cacheMatch` on a cons cell. -/
theorem cacheMatch_cons (a : String × String) (t : Cache) (req : String) :
    cacheMatch (a :: t) req = if a.1 == req then some a.2 else cacheMatch t req := by
  by_cases h : a.1 == req <;> simp [cacheMatch, List.find?_cons, h]

/-- Putting an entry makes it the one found for its key. -/
theorem cacheMatch_cachePut_self (c : Cache) (k v : String) :
    cacheMatch (cachePut c k v) k = some v := by
  induction c with
  | nil => simp [cachePut, cacheMatch_cons]
  | cons a t ih =>
    simp only [cachePut, List.filter_cons] at ih ⊢
    by_cases ha : a.1 = k
    · have hcond : (a.1 != k) = false := by simp [bne, ha]
      rw [hcond]
      simpa using ih
    · have hcond : (a.1 != k) = true := by simp [bne, ha]
      have hbeq : (a.1 == k) = false := by simp [ha]
      rw [hcond]
      simp only [if_true, List.cons_append, cacheMatch_cons, hbeq, Bool.false_eq_true,
        if_false]
      exact ih

/-- Putting an entry leaves every other key's match unchanged. -/
theorem cacheMatch_cachePut_ne (c : Cache) (k v k' : String) (h : k' ≠ k) :
    cacheMatch (cachePut c k v) k' = cacheMatch c k' := by
  induction c with
  | nil =>
    have hne : ¬ (k = k') := fun hh => h hh.symm
    simp [cachePut, cacheMatch_cons, hne, cacheMatch]
  | cons a t ih =>
    simp only [cachePut, List.filter_cons] at ih ⊢
    by_cases ha : a.1 = k
    · have hcond : (a.1 != k) = false := by simp [bne, ha]
      have hak : (a.1 == k') = false := by
        simp [ha]
        exact fun hh => h hh.symm
      rw [hcond]
      simp only [Bool.false_eq_true, if_false, cacheMatch_cons, hak]
      exact ih
    · have hcond : (a.1 != k) = true := by simp [bne, ha]
      rw [hcond]
      by_cases hak : a.1 = k'
      · have hbeq : (a.1 == k') = true := by simp [hak]
        simp only [if_true, List.cons_append, cacheMatch_cons, hbeq]
      · have hbeq : (a.1 == k') = false := by simp [hak]
        simp only [if_true, List.cons_append, cacheMatch_cons, hbeq, Bool.false_eq_true,
          if_false]
        exact ih

/-- Adding entries whose keys avoid a request key leaves its match
unchanged. -/
theorem cacheMatch_addEntries_not_mem (entries : List (String × String)) (k : String)
    (h : k ∉ entries.map Prod.fst) :
    ∀ c, cacheMatch (cacheAddEntries c entries) k = cacheMatch c k := by
  induction entries with
  | nil => intro c; rfl
  | cons e rest ih =>
    intro c
    rw [List.map_cons, List.mem_cons] at h
    push_neg at h
    obtain ⟨h1, h2⟩ := h
    cases e with
    | mk k0 v0 =>
      simp only [cacheAddEntries]
      rw [ih h2 (cachePut c k0 v0), cacheMatch_cachePut_ne c k0 v0 k h1]

/-- Adding entries with pairwise distinct keys stores each of them. -/
theorem cacheMatch_addEntries_mem (entries : List (String × String)) (k v : String)
    (hmem : (k, v) ∈ entries) (hnd : (entries.map Prod.fst).Nodup) :
    ∀ c, cacheMatch (cacheAddEntries c entries) k = some v := by
  induction entries with
  | nil => cases hmem
  | cons e rest ih =>
    intro c
    cases e with
    | mk k0 v0 =>
      simp only [cacheAddEntries]
      rw [List.map_cons] at hnd
      rcases List.mem_cons.mp hmem with he | he
      · cases he
        have hk0 : k ∉ rest.map Prod.fst := (List.nodup_cons.mp hnd).1
        rw [cacheMatch_addEntries_not_mem rest k hk0 (cachePut c k v)]
        exact cacheMatch_cachePut_self c k v
      · exact ih he (List.nodup_cons.mp hnd).2 (cachePut c k0 v0)

/-- Claim C4: when every manifest entry fetches successfully, install
opens (creating if absent) the cache named `CACHE_NAME`, stores every
manifest path into it, and only then reports success to the host. -/
theorem c4_install_stores_manifest (store : CacheStore) (network : Network)
    (resp : String → String)
    (hok : ∀ f ∈ FILES_TO_CACHE, network f = Except.ok (resp f)) :
    (handleInstall store network).result = Except.ok () ∧
    ∃ c, storeLookup (handleInstall store network).store CACHE_NAME = some c ∧
      ∀ f ∈ FILES_TO_CACHE, cacheMatch c f = some (resp f) := by
  have hfa := fetchAll_ok network resp FILES_TO_CACHE hok
  have hstore : (handleInstall store network).store =
      storeUpdate (cachesOpen store CACHE_NAME) CACHE_NAME
        (fun c => cacheAddEntries c (FILES_TO_CACHE.map (fun f => (f, resp f)))) := by
    simp [handleInstall, handleInstallWith, hfa]
  have hresult : (handleInstall store network).result = Except.ok () := by
    simp [handleInstall, handleInstallWith, hfa]
  refine ⟨hresult, ?_⟩
  rw [hstore, storeLookup_storeUpdate_self, storeLookup_cachesOpen_self]
  refine ⟨cacheAddEntries ((storeLookup store CACHE_NAME).getD [])
      (FILES_TO_CACHE.map (fun f => (f, resp f))), rfl, ?_⟩
  intro f hf
  have hmem : (f, resp f) ∈ FILES_TO_CACHE.map (fun g => (g, resp g)) :=
    List.mem_map.mpr ⟨f, hf, rfl⟩
  have hnd : ((FILES_TO_CACHE.map (fun g => (g, resp g))).map Prod.fst).Nodup := by
    rw [List.map_map]
    have hcomp : (Prod.fst ∘ fun g => (g, resp g)) = id := rfl
    rw [hcomp, List.map_id]
    decide
  exact cacheMatch_addEntries_mem _ f (resp f) hmem hnd _

/-- Witness for C4: installing over an empty storage with an
all-successful network stores every manifest entry. -/
theorem c4_install_stores_manifest_witness :
    (handleInstall [] demoOkNetwork).result = Except.ok () ∧
    ∃ c, storeLookup (handleInstall [] demoOkNetwork).store CACHE_NAME = some c ∧
      ∀ f ∈ FILES_TO_CACHE, cacheMatch c f = some ("body:" ++ f) :=
  c4_install_stores_manifest [] demoOkNetwork (fun f => "body:" ++ f) (fun _ _ => rfl)

/-- Claim C7: installing a cache generation under any name modifies no
cache stored under a different name; in particular a new generation
leaves the previous one untouched until an activate cycle runs. -/
theorem c7_generational_isolation (cacheName : String) (store : CacheStore)
    (network : Network) (other : String) (h : other ≠ cacheName) :
    storeLookup (handleInstallWith cacheName store network).store other =
      storeLookup store other := by
  cases hfa : fetchAll network FILES_TO_CACHE with
  | error e =>
    simp only [handleInstallWith, hfa]
    exact storeLookup_cachesOpen_ne store cacheName other h
  | ok entries =>
    simp only [handleInstallWith, hfa]
    rw [storeLookup_storeUpdate_ne _ _ _ _ h]
    exact storeLookup_cachesOpen_ne store cacheName other h

/-- Witness for C7: installing "FoodFest-version_02" leaves the cache
"FoodFest-version_01" exactly as it was. -/
theorem c7_generational_isolation_witness :
    storeLookup (handleInstallWith "FoodFest-version_02" demoStore demoOkNetwork).store
        "FoodFest-version_01" = storeLookup demoStore "FoodFest-version_01" :=
  c7_generational_isolation "FoodFest-version_02" demoStore demoOkNetwork
    "FoodFest-version_01" (by decide)

/-- Claim C3: if fetching any single manifest entry fails, install
reports failure to the host, and nothing is stored: the storage is
exactly the one after `caches.open` (all-or-nothing). -/
theorem c3_install_atomicity (store : CacheStore) (network : Network) (f : String)
    (hf : f ∈ FILES_TO_CACHE) (e : String) (he : network f = Except.error e) :
    (∃ msg, (handleInstall store network).result = Except.error msg) ∧
    (handleInstall store network).store = cachesOpen store CACHE_NAME := by
  obtain ⟨msg, hm⟩ := fetchAll_error_of_mem network FILES_TO_CACHE f hf e he
  constructor
  · exact ⟨msg, by simp [handleInstall, handleInstallWith, hm]⟩
  · simp [handleInstall, handleInstallWith, hm]

/-- Witness for C3: a network failing exactly on "./index.html" makes
install fail and store nothing. -/
theorem c3_install_atomicity_witness :
    (∃ msg, (handleInstall [] demoOneFailNetwork).result = Except.error msg) ∧
    (handleInstall [] demoOneFailNetwork).store = cachesOpen [] CACHE_NAME :=
  c3_install_atomicity [] demoOneFailNetwork "./index.html" (by decide) "HTTP 404" rfl

/-- Claim C9: the current cache name is the concatenation of the two
literal constants, equal to "FoodFest-version_01", and it is the single
name the shipped install handler populates. -/
theorem c9_cache_name :
    CACHE_NAME = APP_PREFIX ++ VERSION ∧
    CACHE_NAME = "FoodFest-version_01" ∧
    handleInstall = handleInstallWith CACHE_NAME :=
  ⟨rfl, rfl, rfl⟩

/-- `firstIndexOfAux` reports index 0 exactly when the pattern is a
prefix. -/
theorem firstIndexOfAux_eq_some_zero_iff (pat l : List Char) :
    firstIndexOfAux pat l = some 0 ↔ pat.isPrefixOf l := by
  cases l with
  | nil =>
    by_cases h : pat.isPrefixOf ([] : List Char) <;> simp [firstIndexOfAux, h]
  | cons c t =>
    by_cases h : pat.isPrefixOf (c :: t)
    · simp [firstIndexOfAux, h]
    · simp only [firstIndexOfAux, h, Bool.false_eq_true, if_false, iff_false]
      cases hx : firstIndexOfAux pat t <;> simp [hx]

/-- The JavaScript string index is 0 exactly when the pattern is a
prefix of the string. -/
theorem jsIndexOf_eq_zero_iff (s pat : String) :
    jsIndexOf s pat = 0 ↔ pat.data.isPrefixOf s.data := by
  unfold jsIndexOf
  rw [← firstIndexOfAux_eq_some_zero_iff pat.data s.data]
  cases hx : firstIndexOfAux pat.data s.data with
  | none => simp
  | some n => simp [Nat.cast_eq_zero]

/-- `arrayIndexOfAux` is `none` exactly on absent elements. -/
theorem arrayIndexOfAux_eq_none_iff (x : String) (l : List String) :
    arrayIndexOfAux x l = none ↔ x ∉ l := by
  induction l with
  | nil => simp [arrayIndexOfAux]
  | cons y t ih =>
    by_cases h : y = x
    · simp [arrayIndexOfAux, h]
    · have hb : (y == x) = false := by simp [h]
      have hne : ¬ (x = y) := fun hh => h hh.symm
      cases hx : arrayIndexOfAux x t <;>
        simp [arrayIndexOfAux, hb, hx, hne, ← ih]

/-- The JavaScript array index is -1 exactly on absent elements. -/
theorem arrayIndexOf_eq_neg_one_iff (l : List String) (x : String) :
    arrayIndexOf l x = -1 ↔ x ∉ l := by
  unfold arrayIndexOf
  cases hx : arrayIndexOfAux x l with
  | none => simp [(arrayIndexOfAux_eq_none_iff x l).mp hx]
  | some n =>
    have hmem : x ∈ l := by
      by_contra hc
      rw [(arrayIndexOfAux_eq_none_iff x l).mpr hc] at hx
      cases hx
    simp only [hmem, not_true_eq_false, iff_false]
    omega

/-- Membership in the activate keep-list: a key survives the filter
when its app-prefix index is truthy (nonzero), and the current cache
name is always appended. -/
theorem mem_cacheKeeplist_iff (keyList : List String) (key : String) :
    key ∈ cacheKeeplist keyList ↔
      (key ∈ keyList ∧ jsIndexOf key APP_PREFIX ≠ 0) ∨ key = CACHE_NAME := by
  unfold cacheKeeplist
  simp [List.mem_append, List.mem_filter, bne_iff_ne]

/-- Membership in the delete set: enumerated keys absent from the
keep-list. -/
theorem mem_activateDeletions_iff (keyList : List String) (key : String) :
    key ∈ activateDeletions keyList ↔
      key ∈ keyList ∧ key ∉ cacheKeeplist keyList := by
  unfold activateDeletions
  simp [List.mem_filter, beq_iff_eq, arrayIndexOf_eq_neg_one_iff]

/-- An element of a list is spotted by `List.contains`. -/
theorem contains_eq_true_of_mem (l : List String) (x : String) (h : x ∈ l) :
    l.contains x = true := by
  induction l with
  | nil => cases h
  | cons y t ih =>
    rcases List.mem_cons.mp h with hh | hh
    · subst hh
      simp [List.contains_cons]
    · simp [List.contains_cons]
      exact Or.inr hh

/-- Filtering the storage with a predicate false on every entry named
`key` makes the lookup of `key` fail. -/
theorem storeLookup_filter_none (store : CacheStore) (p : String × Cache → Bool)
    (key : String) (h : ∀ e : String × Cache, e.1 = key → p e = false) :
    storeLookup (store.filter p) key = none := by
  induction store with
  | nil => rfl
  | cons a t ih =>
    by_cases hp : p a
    · have ha : ¬ (a.1 = key) := fun hh => by
        rw [h a hh] at hp
        cases hp
      simp [List.filter_cons, hp, storeLookup_cons, ha, ih]
    · simp [List.filter_cons, hp, ih]

/-- Claim C10: during activate, an enumerated cache key is deleted
exactly when its name starts with `APP_PREFIX` (index 0) and differs
from `CACHE_NAME`; keys with the app prefix absent (index -1) or at a
positive index are kept, and `CACHE_NAME` itself is never deleted. -/
theorem c10_delete_policy (store : CacheStore) :
    (∀ key ∈ storeKeys store,
      (key ∈ (handleActivate store).2 ↔
        (jsIndexOf key APP_PREFIX = 0 ∧ key ≠ CACHE_NAME))) ∧
    CACHE_NAME ∉ (handleActivate store).2 := by
  have hsnd : (handleActivate store).2 = activateDeletions (storeKeys store) := rfl
  constructor
  · intro key hk
    rw [hsnd, mem_activateDeletions_iff, mem_cacheKeeplist_iff]
    constructor
    · rintro ⟨-, hnotin⟩
      push_neg at hnotin
      exact ⟨hnotin.1 hk, hnotin.2⟩
    · rintro ⟨h0, hne⟩
      refine ⟨hk, ?_⟩
      rintro (⟨-, hne0⟩ | hceq)
      · exact hne0 h0
      · exact hne hceq
  · rw [hsnd]
    intro hmem
    rw [mem_activateDeletions_iff] at hmem
    exact hmem.2 ((mem_cacheKeeplist_iff (storeKeys store) CACHE_NAME).mpr (Or.inr rfl))

/-- Witness for C10 on the three-key storage: the stale prefixed cache
"FoodFest-version_02" satisfies the delete test, and the active cache
name is not deleted. -/
theorem c10_delete_policy_witness :
    ("FoodFest-version_02" ∈ (handleActivate demoThreeKeyStore).2 ↔
      (jsIndexOf "FoodFest-version_02" APP_PREFIX = 0 ∧
        "FoodFest-version_02" ≠ CACHE_NAME)) ∧
    CACHE_NAME ∉ (handleActivate demoThreeKeyStore).2 :=
  ⟨(c10_delete_policy demoThreeKeyStore).1 "FoodFest-version_02" (by decide),
   (c10_delete_policy demoThreeKeyStore).2⟩

/-- Claim C6: activation's jointly awaited completion covers every key
of the delete set — each such deletion is attempted and has taken
effect in the resulting storage — and an empty key list means no
deletion occurs and activation completes with the storage unchanged. -/
theorem c6_activate_completion (store : CacheStore) :
    (∀ key ∈ activateDeletions (storeKeys store),
        key ∈ (handleActivate store).2 ∧
        storeLookup (handleActivate store).1 key = none) ∧
    (storeKeys store = [] → handleActivate store = (store, [])) := by
  constructor
  · intro key hk
    refine ⟨hk, ?_⟩
    show storeLookup
      (store.filter (fun e => !((activateDeletions (storeKeys store)).contains e.1)))
      key = none
    apply storeLookup_filter_none
    intro e he
    rw [he]
    rw [contains_eq_true_of_mem _ _ hk]
    rfl
  · intro h
    have hnil : store = [] := List.map_eq_nil_iff.mp h
    subst hnil
    rfl

/-- Witness for C6: on the three-key storage the deletion of
"FoodFest-version_02" is attempted and settled, and on the empty
storage activation completes immediately with no deletions. -/
theorem c6_activate_completion_witness :
    ("FoodFest-version_02" ∈ (handleActivate demoThreeKeyStore).2 ∧
      storeLookup (handleActivate demoThreeKeyStore).1 "FoodFest-version_02" = none) ∧
    handleActivate ([] : CacheStore) = ([], []) :=
  ⟨(c6_activate_completion demoThreeKeyStore).1 "FoodFest-version_02" (by decide),
   (c6_activate_completion []).2 rfl⟩

/-- Counterexample to claim C5 as stated: "FoodFest-version_02"
contains (indeed starts with) `APP_PREFIX`, yet the activate handler
does not keep it: it is excluded from the keep-list, its deletion is
requested, and it is gone from the resulting storage, so the keep-policy
does not keep everything. -/
theorem c5_counterexample_not_kept :
    jsIndexOf "FoodFest-version_02" APP_PREFIX = 0 ∧
    "FoodFest-version_02" ∉ cacheKeeplist (storeKeys demoThreeKeyStore) ∧
    "FoodFest-version_02" ∈ (handleActivate demoThreeKeyStore).2 ∧
    storeLookup (handleActivate demoThreeKeyStore).1 "FoodFest-version_02" = none := by
  refine ⟨by decide, by decide, by decide, by decide⟩

/-- Claim C5 (amended): the stale-cache filter keeps a key when its
`indexOf(APP_PREFIX)` is truthy, i.e. nonzero — which holds exactly for
keys that do not start with the app prefix — and the current cache name
is then appended; so on the spec's three-key example the keep-list is
["other-app-cache", "FoodFest-version_01"], the prefixed
previous-generation key "FoodFest-version_02" is deleted, and garbage
collection of prior app generations is effective, not disabled. -/
theorem c5_amended_keep_policy :
    cacheKeeplist (storeKeys demoThreeKeyStore)
        = ["other-app-cache", "FoodFest-version_01"] ∧
    (handleActivate demoThreeKeyStore).2 = ["FoodFest-version_02"] ∧
    storeKeys (handleActivate demoThreeKeyStore).1
        = ["FoodFest-version_01", "other-app-cache"] ∧
    (∀ key : String, jsIndexOf key APP_PREFIX ≠ 0 ↔
      ¬ APP_PREFIX.data.isPrefixOf key.data) := by
  refine ⟨by decide, by decide, by decide, ?_⟩
  intro key
  rw [not_iff_not]
  exact jsIndexOf_eq_zero_iff key APP_PREFIX
